import Mathlib

/-
Verification of `metagpt/actions/design_api.py` (class `WriteDesign`).

The Python module is an orchestration step: for each changed PRD or system-design
filename it prompts a language model for a six-field system design, normalizes the
"Python package name" field, persists the design document and derives diagram files
and a PDF.  We embed it shallowly:

* JSON text is modelled by its parse tree (`Json`); Pydantic's
  `instruct_content.json()` becomes `fieldsToJson` and Python's `json.loads`
  becomes the identity on the tree.
* The external collaborators (LLM invocation via `_aask_v1`, file persistence,
  mermaid rendering, PDF export) are oracles supplied in an `Env`; each may fail,
  modelling a raised exception, via `Except PyError`.
* Filesystem and repository side effects are threaded explicitly through a
  `StepState` holding the document stores and an append-only event trace.
* `async`/`await` sequencing in the Python source is single-threaded cooperative
  scheduling with no interleaving inside this step, so it is modelled by ordinary
  sequential evaluation.
-/

set_option autoImplicit false

namespace DesignApi

/-- Python `str.strip(chars)` on the leading side: drop the longest prefix of
characters belonging to `cs`. -/
def stripLead (cs : List Char) (l : List Char) : List Char :=
  l.dropWhile (fun c => cs.contains c)

/-- Python `str.strip(chars)` on a character list: drop from both ends every
character belonging to `cs`. -/
def stripBoth (cs : List Char) (l : List Char) : List Char :=
  (stripLead cs (stripLead cs l).reverse).reverse

/-- Python `str.strip(chars)` lifted to `String`. -/
def pyStrip (cs : List Char) (s : String) : String :=
  ⟨stripBoth cs s.data⟩

/-- The ASCII whitespace characters stripped by Python `str.strip()` with no
argument (the source never feeds non-ASCII whitespace to it). -/
def pyWhitespace : List Char := [' ', '\t', '\n', '\r', '\x0b', '\x0c']

/-- The package-name normalization applied in both `_new_system_design` and
`_merge`: `.strip().strip("'").strip('"')` — whitespace, then single quotes,
then double quotes, each from both ends. -/
def stripPackageName (s : String) : String :=
  pyStrip ['"'] (pyStrip ['\''] (pyStrip pyWhitespace s))

/-- Parse tree of a JSON value, restricted to the shapes this module produces
and consumes (strings, arrays, objects). -/
inductive Json where
  | str (s : String)
  | arr (elems : List Json)
  | obj (fields : List (String × Json))

/-- Keys of a JSON object (empty for non-objects). -/
def Json.keys : Json → List String
  | .obj fields => fields.map Prod.fst
  | _ => []

/-- Python `dict.get` on a parsed JSON object (`m.get(key)` in
`_save_data_api_design` / `_save_seq_flow`). -/
def Json.get : Json → String → Option Json
  | .obj fields, key => lookupStr fields key
  | _, _ => none
where
  lookupStr : List (String × Json) → String → Option Json
    | [], _ => none
    | (k, v) :: rest, key => if k = key then some v else lookupStr rest key

/-- Python truthiness of `m.get(key)` as used in `if not data_api_design:`:
`None`, the empty string, the empty list and the empty object are falsy. -/
def jsonTruthy : Option Json → Bool
  | none => false
  | some (.str s) => !(s = "")
  | some (.arr elems) => !elems.isEmpty
  | some (.obj fields) => !fields.isEmpty

/-- The structured output schema `OUTPUT_MAPPING`: the six named fields every
design produced by `_aask_v1` carries.  Field order follows the source. -/
structure SystemDesignFields where
  implementationApproach : String
  pythonPackageName : String
  fileList : List String
  dataStructures : String
  programCallFlow : String
  anythingUnclear : String
deriving DecidableEq

/-- The six field names of `OUTPUT_MAPPING`, in declaration order. -/
def outputMappingKeys : List String :=
  ["Implementation approach", "Python package name", "File list",
   "Data structures and interface definitions", "Program call flow",
   "Anything UNCLEAR"]

/-- Serialization `instruct_content.json()`: the Pydantic model built from
`OUTPUT_MAPPING` serializes to a JSON object with exactly the six fields. -/
def fieldsToJson (f : SystemDesignFields) : Json :=
  .obj [("Implementation approach", .str f.implementationApproach),
        ("Python package name", .str f.pythonPackageName),
        ("File list", .arr (f.fileList.map Json.str)),
        ("Data structures and interface definitions", .str f.dataStructures),
        ("Program call flow", .str f.programCallFlow),
        ("Anything UNCLEAR", .str f.anythingUnclear)]

/-- Read back a list of JSON strings. -/
def jsonStrList : List Json → Option (List String)
  | [] => some []
  | .str s :: rest => (jsonStrList rest).map (fun l => s :: l)
  | _ => none

/-- Deserialization of a design document's content: succeeds exactly on JSON
objects carrying the six `OUTPUT_MAPPING` fields with their declared types. -/
def jsonToFields : Json → Option SystemDesignFields
  | .obj [("Implementation approach", .str ia), ("Python package name", .str pn),
          ("File list", .arr fl),
          ("Data structures and interface definitions", .str ds),
          ("Program call flow", .str cf), ("Anything UNCLEAR", .str au)] =>
      (jsonStrList fl).map (fun l => ⟨ia, pn, l, ds, cf, au⟩)
  | _ => none

/-- `metagpt.schema.Document`: identifier, logical root path and content. -/
structure Document where
  root_path : String
  filename : String
  content : Json

/-- Logical relative path of a document (`Document.root_relative_path`),
used as the saved design's dependency. -/
def Document.rootRelativePath (d : Document) : String :=
  d.root_path ++ "/" ++ d.filename

/-- `metagpt.schema.Documents`: a mapping from filename to document, modelled
as an association list in insertion order (a Python `dict`). -/
structure Documents where
  docs : List (String × Document)

/-- Lookup in an association list by key (Python `dict` access / `in`). -/
def alookup {α : Type} : List (String × α) → String → Option α
  | [], _ => none
  | (k, v) :: rest, key => if k = key then some v else alookup rest key

/-- Python `dict` item assignment: update in place if the key exists,
otherwise append, preserving insertion order. -/
def aset {α : Type} : List (String × α) → String → α → List (String × α)
  | [], key, v => [(key, v)]
  | (k, w) :: rest, key, v =>
      if k = key then (k, v) :: rest else (k, w) :: aset rest key v

/-- Repository-relative directory constants from `metagpt.const`.  The values
for the PRD and system-design repositories follow the comments in
`WriteDesign.run`; the remaining ones are opaque distinct markers. -/
def PRDS_FILE_REPO : String := "docs/prds"

/-- Directory of the system-design document repository. -/
def SYSTEM_DESIGN_FILE_REPO : String := "docs/system_designs"

/-- Directory for rendered class-diagram files. -/
def DATA_API_DESIGN_FILE_REPO : String := "resources/data_api_design"

/-- Directory for rendered sequence-diagram files. -/
def SEQ_FLOW_FILE_REPO : String := "resources/seq_flow"

/-- Directory for exported design PDFs. -/
def SYSTEM_DESIGN_PDF_FILE_REPO : String := "resources/system_design"

/-- A failure raised while processing: either a Python `AttributeError` from
dereferencing a `None` PRD document, or an exception raised by an external
collaborator (LLM client, output parser, filesystem). -/
inductive PyError where
  | attributeErrorNone
  | external (msg : String)
deriving DecidableEq

/-- A prompt handed to `_aask_v1`.  The spec excludes prompt text content from
specification, so a prompt is its template identity plus the formatted-in
arguments: `PROMPT_TEMPLATE.format(context=..., format_example=...)` for a new
design, `MERGE_PROMPT.format(old_design=..., context=...)` for a merge; the
`format` argument selects the template / parser variant. -/
inductive Prompt where
  | newDesign (context : Json) (format : String)
  | merge (oldDesign : Json) (context : Json) (format : String)

/-- Observable side effects, in occurrence order. -/
inductive Event where
  | llmCall (p : Prompt)
  | designSaved (filename : String) (content : Json) (dependencies : List String)
  | mermaidSaved (repoDir : String) (filename : String) (data : Json)
  | pdfSaved (filename : String) (content : Json)
  | rootRenamed (name : String)

/-- Modelled from the spec: the document repository abstraction
(`metagpt.utils.file_repository.FileRepository`, not part of the excerpt) is
"a document repository keyed by filename supporting get/save and
change-detection".  `get` returns the stored content under a filename or
nothing; `save` rewrites the content stored under that filename wholesale;
`changed_files` lists the filenames flagged changed by git diff.  Both stores
plus their changed-file lists form the repository state. -/
structure RepoState where
  prdFiles : List (String × Json)
  designFiles : List (String × Json)
  prdChanged : List String
  designChanged : List String

/-- State threaded through the step: the repositories and the trace of
external side effects performed so far. -/
structure StepState where
  repo : RepoState
  events : List Event

/-- Append one observable effect to the trace. -/
def addEvent (st : StepState) (e : Event) : StepState :=
  { st with events := st.events ++ [e] }

/-- The external collaborators, as deterministic oracles.  `askV1` models
`_aask_v1` (LLM call plus schema parsing — a success is a value already
validated against `OUTPUT_MAPPING`); the three save oracles model the
filesystem outcomes of design save, mermaid rendering and PDF export;
`workdirSet` is the truthiness of `CONFIG.WORKDIR`; `promptFormat` is
`CONFIG.prompt_format`. -/
structure Env where
  askV1 : Prompt → Except PyError SystemDesignFields
  saveDesignRes : String → Json → List String → Except PyError Unit
  saveMermaidRes : String → String → Json → Except PyError Unit
  savePdfRes : String → Json → Except PyError Unit
  workdirSet : Bool
  promptFormat : String

/-- `WriteDesign._rename_workspace`: a no-op when `CONFIG.WORKDIR` is set;
otherwise renames the git workspace root to the parsed package name.  The
caller always passes the `ActionOutput` whose package name was already
normalized, so the `isinstance` branch taken is the `ActionOutput` one. -/
def renameWorkspace (env : Env) (st : StepState) (sd : SystemDesignFields) :
    StepState :=
  if env.workdirSet then st else addEvent st (.rootRenamed sd.pythonPackageName)

/-- `WriteDesign._new_system_design`: build the new-design prompt, call
`_aask_v1`, normalize the package name with `.strip().strip("'").strip('"')`,
then `_rename_workspace`. -/
def newSystemDesign (env : Env) (st : StepState) (context : Json) :
    Except PyError SystemDesignFields × StepState :=
  let prompt := Prompt.newDesign context env.promptFormat
  let st1 := addEvent st (.llmCall prompt)
  match env.askV1 prompt with
  | .error e => (.error e, st1)
  | .ok sd =>
      let sd' := { sd with pythonPackageName := stripPackageName sd.pythonPackageName }
      (.ok sd', renameWorkspace env st1 sd')

/-- `WriteDesign._merge`: build `MERGE_PROMPT` from the old design and the
changed PRD, call `_aask_v1`, normalize the package name the same way, and
overwrite the old document's content with the re-serialized result. -/
def mergeDesign (env : Env) (st : StepState) (prdDoc systemDesignDoc : Document) :
    Except PyError Document × StepState :=
  let prompt := Prompt.merge systemDesignDoc.content prdDoc.content env.promptFormat
  let st1 := addEvent st (.llmCall prompt)
  match env.askV1 prompt with
  | .error e => (.error e, st1)
  | .ok sd =>
      let sd' := { sd with pythonPackageName := stripPackageName sd.pythonPackageName }
      (.ok { systemDesignDoc with content := fieldsToJson sd' }, st1)

/-- `WriteDesign._save_data_api_design`: read the class-diagram text out of the
document's JSON content; if it is falsy, do nothing; otherwise render it under
`DATA_API_DESIGN_FILE_REPO`. -/
def saveDataApiDesign (env : Env) (st : StepState) (doc : Document) :
    Except PyError Unit × StepState :=
  let field := doc.content.get "Data structures and interface definitions"
  if jsonTruthy field then
    match field with
    | some v =>
        match env.saveMermaidRes DATA_API_DESIGN_FILE_REPO doc.filename v with
        | .error e => (.error e, st)
        | .ok _ => (.ok (), addEvent st (.mermaidSaved DATA_API_DESIGN_FILE_REPO doc.filename v))
    | none => (.ok (), st)
  else (.ok (), st)

/-- `WriteDesign._save_seq_flow`: same as the class diagram, for the
"Program call flow" field, under `SEQ_FLOW_FILE_REPO`. -/
def saveSeqFlow (env : Env) (st : StepState) (doc : Document) :
    Except PyError Unit × StepState :=
  let field := doc.content.get "Program call flow"
  if jsonTruthy field then
    match field with
    | some v =>
        match env.saveMermaidRes SEQ_FLOW_FILE_REPO doc.filename v with
        | .error e => (.error e, st)
        | .ok _ => (.ok (), addEvent st (.mermaidSaved SEQ_FLOW_FILE_REPO doc.filename v))
    | none => (.ok (), st)
  else (.ok (), st)

/-- `WriteDesign._save_pdf`: export the document through the PDF repository. -/
def savePdf (env : Env) (st : StepState) (doc : Document) :
    Except PyError Unit × StepState :=
  match env.savePdfRes doc.filename doc.content with
  | .error e => (.error e, st)
  | .ok _ => (.ok (), addEvent st (.pdfSaved doc.filename doc.content))

/-- The tail of `_update_system_design`: save the produced design document
(recording its dependency on the PRD), then derive the class diagram, the
sequence diagram and the PDF. -/
def saveAll (env : Env) (st : StepState) (filename : String) (prd doc : Document) :
    Except PyError Document × StepState :=
  match env.saveDesignRes filename doc.content [prd.rootRelativePath] with
  | .error e => (.error e, st)
  | .ok _ =>
      let st1 : StepState :=
        { repo := { st.repo with designFiles := aset st.repo.designFiles filename doc.content },
          events := st.events ++ [.designSaved filename doc.content [prd.rootRelativePath]] }
      match saveDataApiDesign env st1 doc with
      | (.error e, st2) => (.error e, st2)
      | (.ok _, st2) =>
          match saveSeqFlow env st2 doc with
          | (.error e, st3) => (.error e, st3)
          | (.ok _, st3) =>
              match savePdf env st3 doc with
              | (.error e, st4) => (.error e, st4)
              | (.ok _, st4) => (.ok doc, st4)

/-- `WriteDesign._update_system_design`: fetch the PRD and any prior design for
`filename`; with no prior design generate a brand-new one from the PRD content
and wrap it in a new `Document`; otherwise merge the prior design with the
changed PRD; then persist and derive the diagram files and PDF.  A missing PRD
raises (`None.content` is an `AttributeError`). -/
def updateSystemDesign (env : Env) (st : StepState) (filename : String) :
    Except PyError Document × StepState :=
  match alookup st.repo.prdFiles filename with
  | none => (.error .attributeErrorNone, st)
  | some prdContent =>
      let prd : Document := ⟨PRDS_FILE_REPO, filename, prdContent⟩
      match alookup st.repo.designFiles filename with
      | none =>
          match newSystemDesign env st prd.content with
          | (.error e, st') => (.error e, st')
          | (.ok flds, st') =>
              let doc : Document := ⟨SYSTEM_DESIGN_FILE_REPO, filename, fieldsToJson flds⟩
              saveAll env st' filename prd doc
      | some oldContent =>
          let oldDoc : Document := ⟨SYSTEM_DESIGN_FILE_REPO, filename, oldContent⟩
          match mergeDesign env st prd oldDoc with
          | (.error e, st') => (.error e, st')
          | (.ok doc, st') => saveAll env st' filename prd doc

/-- First loop of `WriteDesign.run`: process every changed PRD filename in
order, accumulating the produced documents. -/
def runPrdPass (env : Env) :
    List String → Documents → StepState → Except PyError Documents × StepState
  | [], acc, st => (.ok acc, st)
  | f :: rest, acc, st =>
      match updateSystemDesign env st f with
      | (.error e, st') => (.error e, st')
      | (.ok doc, st') => runPrdPass env rest ⟨aset acc.docs f doc⟩ st'

/-- Second loop of `WriteDesign.run`: process every changed system-design
filename in order, skipping any filename already in the accumulated result. -/
def runDesignPass (env : Env) :
    List String → Documents → StepState → Except PyError Documents × StepState
  | [], acc, st => (.ok acc, st)
  | f :: rest, acc, st =>
      if (alookup acc.docs f).isSome then runDesignPass env rest acc st
      else
        match updateSystemDesign env st f with
        | (.error e, st') => (.error e, st')
        | (.ok doc, st') => runDesignPass env rest ⟨aset acc.docs f doc⟩ st'

/-- `WriteDesign.run`: detect the changed PRDs and changed system designs,
regenerate the design for each (PRD pass first, then the remaining design
filenames), and return the collection of produced documents — the returned
`ActionOutput` wraps exactly this collection. -/
def run (env : Env) (st : StepState) : Except PyError Documents × StepState :=
  match runPrdPass env st.repo.prdChanged ⟨[]⟩ st with
  | (.error e, st') => (.error e, st')
  | (.ok acc, st') => runDesignPass env st.repo.designChanged acc st'

/-- Observable: the prompts of the LLM calls in a trace, in order. -/
def llmCalls (evts : List Event) : List Prompt :=
  evts.filterMap fun e => match e with
    | .llmCall p => some p
    | _ => none

/-- Observable: filename and content of every saved design document, in order. -/
def savedDesigns (evts : List Event) : List (String × Json) :=
  evts.filterMap fun e => match e with
    | .designSaved f c _ => some (f, c)
    | _ => none

/-- Observable: filename and data of every mermaid file rendered into the given
diagram repository, in order. -/
def savedMermaids (repoDir : String) (evts : List Event) : List (String × Json) :=
  evts.filterMap fun e => match e with
    | .mermaidSaved r f v => if r = repoDir then some (f, v) else none
    | _ => none

/-- Observable: filename and content of every exported PDF, in order. -/
def savedPdfs (evts : List Event) : List (String × Json) :=
  evts.filterMap fun e => match e with
    | .pdfSaved f c => some (f, c)
    | _ => none

/-- The filename a file-writing effect touches (none for an LLM call or a
workspace rename, which write no document). -/
def eventTouches : Event → Option String
  | .designSaved f _ _ => some f
  | .mermaidSaved _ f _ => some f
  | .pdfSaved f _ => some f
  | .llmCall _ => none
  | .rootRenamed _ => none

/-- The package-name normalization applied to the raw parsed fields in both
`_new_system_design` and `_merge`. -/
def normalizeFields (raw : SystemDesignFields) : SystemDesignFields :=
  { raw with pythonPackageName := stripPackageName raw.pythonPackageName }

/-- Expected mermaid renders for one document and field key: one render when
the field is present and truthy, none otherwise. -/
def mermaidSpec (doc : Document) (key : String) : List (String × Json) :=
  match doc.content.get key with
  | some v => if jsonTruthy (some v) then [(doc.filename, v)] else []
  | none => []

/-- The order in which `run` processes filenames: every changed PRD first, then
the changed system designs that did not also appear among the changed PRDs. -/
def processOrder (prds designs : List String) : List String :=
  prds ++ designs.filter (fun f => decide (f ∉ prds))

/-- A well-formed parsed design used to instantiate the oracles concretely. -/
def sampleFields : SystemDesignFields :=
  ⟨"We will use pygame.", "snake_game", ["main.py"], "classDiagram", "sequenceDiagram", "Clear."⟩

/-- A concrete environment whose collaborators all succeed. -/
def wEnv : Env :=
  { askV1 := fun _ => .ok sampleFields,
    saveDesignRes := fun _ _ _ => .ok (),
    saveMermaidRes := fun _ _ _ => .ok (),
    savePdfRes := fun _ _ => .ok (),
    workdirSet := true,
    promptFormat := "json" }

/-- A concrete starting state: one changed PRD, no prior design. -/
def wSt : StepState :=
  ⟨⟨[("a.txt", .str "prd a")], [], ["a.txt"], []⟩, []⟩

/-- A concrete starting state with a prior design for the changed PRD. -/
def wStMerge : StepState :=
  ⟨⟨[("a.txt", .str "prd a")], [("a.txt", .str "old design")], ["a.txt"], []⟩, []⟩

/-- A parsed design whose "Program call flow" field is empty. -/
def emptyFlowFields : SystemDesignFields :=
  ⟨"We will use pygame.", "snake_game", ["main.py"], "classDiagram", "", "Clear."⟩

/-- Environment whose LLM answers with an empty "Program call flow" field. -/
def cEnvFlow : Env :=
  { wEnv with askV1 := fun _ => .ok emptyFlowFields }

/-- A parsed design whose package name is a single-quoted name wrapped in
double quotes. -/
def quotedFields : SystemDesignFields :=
  ⟨"We will use pygame.", "\"'snake'\"", ["main.py"], "classDiagram", "sequenceDiagram", "Clear."⟩

/-- Environment whose LLM answers with the doubly quoted package name. -/
def cEnvQuoted : Env :=
  { wEnv with askV1 := fun _ => .ok quotedFields }

/-- Environment whose LLM invocation raises. -/
def failEnv : Env :=
  { wEnv with askV1 := fun _ => .error (.external "llm raised") }

/-- A concrete starting state in which change detection found nothing. -/
def quietSt : StepState :=
  ⟨⟨[("a.txt", .str "prd a")], [], [], []⟩, []⟩

theorem alookup_aset {α : Type} (m : List (String × α)) (k g : String) (v : α) :
    alookup (aset m k v) g = if k = g then some v else alookup m g := by
  induction m with
  | nil => simp [aset, alookup]
  | cons p rest ih =>
      obtain ⟨k', w⟩ := p
      simp only [aset, alookup]
      by_cases h1 : k' = k
      · subst h1
        simp only [if_pos rfl, alookup]
        by_cases h2 : k' = g <;> simp [h2]
      · simp only [if_neg h1, alookup]
        by_cases h2 : k' = g
        · subst h2
          have hkg : ¬k = k' := fun hh => h1 hh.symm
          simp [hkg]
        · simp [h2, ih]

theorem aset_of_lookup_none {α : Type} (m : List (String × α)) (k : String) (v : α)
    (h : alookup m k = none) : aset m k v = m ++ [(k, v)] := by
  induction m with
  | nil => simp [aset]
  | cons p rest ih =>
      obtain ⟨k', w⟩ := p
      by_cases h1 : k' = k
      · simp [alookup, h1] at h
      · simp [alookup, h1] at h
        simp [aset, h1, ih h]

theorem dropWhile_head?_false {α : Type} (p : α → Bool) (l : List α) (a : α)
    (h : (l.dropWhile p).head? = some a) : p a = false := by
  induction l with
  | nil => simp [List.dropWhile] at h
  | cons x xs ih =>
      by_cases hx : p x
      · rw [List.dropWhile_cons, if_pos hx] at h
        exact ih h
      · rw [List.dropWhile_cons, if_neg hx] at h
        simp at h
        rw [← h]
        simpa using hx

theorem dropWhile_getLast?_of_ne_nil {α : Type} (p : α → Bool) (l : List α)
    (h : l.dropWhile p ≠ []) : (l.dropWhile p).getLast? = l.getLast? := by
  induction l with
  | nil => simp [List.dropWhile] at h
  | cons x xs ih =>
      by_cases hx : p x
      · rw [List.dropWhile_cons, if_pos hx] at h ⊢
        have hxs : xs ≠ [] := by
          intro hn
          rw [hn] at h
          simp [List.dropWhile] at h
        rw [ih h]
        cases xs with
        | nil => exact absurd rfl hxs
        | cons y ys => rw [List.getLast?_cons_cons]
      · rw [List.dropWhile_cons, if_neg hx]

theorem stripBoth_head?_false (cs : List Char) (l : List Char) (a : Char)
    (h : (stripBoth cs l).head? = some a) : cs.contains a = false := by
  unfold stripBoth stripLead at h
  rw [List.head?_reverse] at h
  have hne : (((l.dropWhile fun c => cs.contains c).reverse).dropWhile
      fun c => cs.contains c) ≠ [] := by
    intro hn
    rw [hn] at h
    simp at h
  rw [dropWhile_getLast?_of_ne_nil _ _ hne, List.getLast?_reverse] at h
  exact dropWhile_head?_false _ _ _ h

theorem stripBoth_getLast?_false (cs : List Char) (l : List Char) (a : Char)
    (h : (stripBoth cs l).getLast? = some a) : cs.contains a = false := by
  unfold stripBoth stripLead at h
  rw [List.getLast?_reverse] at h
  exact dropWhile_head?_false _ _ _ h

theorem stripPackageName_no_dquote_ends (s : String) (c : Char) :
    ((stripPackageName s).data.head? = some c → c ≠ '"') ∧
    ((stripPackageName s).data.getLast? = some c → c ≠ '"') := by
  constructor
  · intro h heq
    subst heq
    have := stripBoth_head?_false ['"'] (pyStrip ['\''] (pyStrip pyWhitespace s)).data _ h
    simp [List.contains] at this
  · intro h heq
    subst heq
    have := stripBoth_getLast?_false ['"'] (pyStrip ['\''] (pyStrip pyWhitespace s)).data _ h
    simp [List.contains] at this

theorem jsonStrList_map_str (l : List String) : jsonStrList (l.map Json.str) = some l := by
  induction l with
  | nil => rfl
  | cons x xs ih => simp [jsonStrList, ih]

theorem jsonToFields_fieldsToJson (f : SystemDesignFields) :
    jsonToFields (fieldsToJson f) = some f := by
  simp [jsonToFields, fieldsToJson, jsonStrList_map_str]

theorem fieldsToJson_keys (f : SystemDesignFields) :
    (fieldsToJson f).keys = outputMappingKeys := rfl

theorem get_fieldsToJson_pkg (f : SystemDesignFields) :
    (fieldsToJson f).get "Python package name" = some (.str f.pythonPackageName) := rfl

theorem get_fieldsToJson_ds (f : SystemDesignFields) :
    (fieldsToJson f).get "Data structures and interface definitions" =
      some (.str f.dataStructures) := rfl

theorem get_fieldsToJson_flow (f : SystemDesignFields) :
    (fieldsToJson f).get "Program call flow" = some (.str f.programCallFlow) := rfl

theorem savePdf_ok (env : Env) (st : StepState) (doc : Document) (st₂ : StepState)
    (h : savePdf env st doc = (.ok (), st₂)) :
    st₂.repo = st.repo ∧
    st₂.events = st.events ++ [.pdfSaved doc.filename doc.content] := by
  unfold savePdf at h
  cases hres : env.savePdfRes doc.filename doc.content with
  | error e => rw [hres] at h; simp [Prod.ext_iff] at h
  | ok u =>
      rw [hres] at h
      simp only [Prod.mk.injEq, addEvent] at h
      rw [← h.2]
      exact ⟨rfl, rfl⟩

theorem saveDataApiDesign_ok (env : Env) (st : StepState) (doc : Document) (st₂ : StepState)
    (h : saveDataApiDesign env st doc = (.ok (), st₂)) :
    st₂.repo = st.repo ∧
    st₂.events = st.events ++
      (mermaidSpec doc "Data structures and interface definitions").map
        (fun p => Event.mermaidSaved DATA_API_DESIGN_FILE_REPO p.1 p.2) := by
  unfold saveDataApiDesign at h
  cases hf : doc.content.get "Data structures and interface definitions" with
  | none =>
      rw [hf] at h
      simp only [jsonTruthy, Bool.false_eq_true, if_false, Prod.mk.injEq] at h
      rw [← h.2]
      refine ⟨rfl, ?_⟩
      simp [mermaidSpec, hf]
  | some v =>
      rw [hf] at h
      by_cases ht : jsonTruthy (some v) = true
      · rw [if_pos ht] at h
        simp only [] at h
        cases hres : env.saveMermaidRes DATA_API_DESIGN_FILE_REPO doc.filename v with
        | error e => rw [hres] at h; simp [Prod.ext_iff] at h
        | ok u =>
            rw [hres] at h
            simp only [Prod.mk.injEq, addEvent] at h
            rw [← h.2]
            refine ⟨rfl, ?_⟩
            simp [mermaidSpec, hf, ht]
      · rw [if_neg ht] at h
        simp only [Prod.mk.injEq] at h
        rw [← h.2]
        refine ⟨rfl, ?_⟩
        simp [mermaidSpec, hf, ht]

theorem saveSeqFlow_ok (env : Env) (st : StepState) (doc : Document) (st₂ : StepState)
    (h : saveSeqFlow env st doc = (.ok (), st₂)) :
    st₂.repo = st.repo ∧
    st₂.events = st.events ++
      (mermaidSpec doc "Program call flow").map
        (fun p => Event.mermaidSaved SEQ_FLOW_FILE_REPO p.1 p.2) := by
  unfold saveSeqFlow at h
  cases hf : doc.content.get "Program call flow" with
  | none =>
      rw [hf] at h
      simp only [jsonTruthy, Bool.false_eq_true, if_false, Prod.mk.injEq] at h
      rw [← h.2]
      refine ⟨rfl, ?_⟩
      simp [mermaidSpec, hf]
  | some v =>
      rw [hf] at h
      by_cases ht : jsonTruthy (some v) = true
      · rw [if_pos ht] at h
        simp only [] at h
        cases hres : env.saveMermaidRes SEQ_FLOW_FILE_REPO doc.filename v with
        | error e => rw [hres] at h; simp [Prod.ext_iff] at h
        | ok u =>
            rw [hres] at h
            simp only [Prod.mk.injEq, addEvent] at h
            rw [← h.2]
            refine ⟨rfl, ?_⟩
            simp [mermaidSpec, hf, ht]
      · rw [if_neg ht] at h
        simp only [Prod.mk.injEq] at h
        rw [← h.2]
        refine ⟨rfl, ?_⟩
        simp [mermaidSpec, hf, ht]

theorem saveAll_ok (env : Env) (st : StepState) (f : String) (prd doc : Document)
    (d : Document) (st' : StepState) (h : saveAll env st f prd doc = (.ok d, st')) :
    d = doc ∧
    st'.repo.designFiles = aset st.repo.designFiles f doc.content ∧
    st'.repo.prdFiles = st.repo.prdFiles ∧
    st'.repo.prdChanged = st.repo.prdChanged ∧
    st'.repo.designChanged = st.repo.designChanged ∧
    st'.events = st.events
      ++ [.designSaved f doc.content [prd.rootRelativePath]]
      ++ (mermaidSpec doc "Data structures and interface definitions").map
          (fun p => Event.mermaidSaved DATA_API_DESIGN_FILE_REPO p.1 p.2)
      ++ (mermaidSpec doc "Program call flow").map
          (fun p => Event.mermaidSaved SEQ_FLOW_FILE_REPO p.1 p.2)
      ++ [.pdfSaved doc.filename doc.content] := by
  unfold saveAll at h
  split at h
  · simp [Prod.ext_iff] at h
  · simp only [] at h
    split at h
    · simp [Prod.ext_iff] at h
    · rename_i a2 st2 heq2
      cases a2
      obtain ⟨hrepo2, hev2⟩ := saveDataApiDesign_ok env _ doc st2 heq2
      split at h
      · simp [Prod.ext_iff] at h
      · rename_i a3 st3 heq3
        cases a3
        obtain ⟨hrepo3, hev3⟩ := saveSeqFlow_ok env st2 doc st3 heq3
        split at h
        · simp [Prod.ext_iff] at h
        · rename_i a4 st4 heq4
          cases a4
          obtain ⟨hrepo4, hev4⟩ := savePdf_ok env st3 doc st4 heq4
          simp only [Prod.mk.injEq, Except.ok.injEq] at h
          obtain ⟨hd, hst⟩ := h
          subst hst
          refine ⟨hd.symm, ?_, ?_, ?_, ?_, ?_⟩
          · rw [hrepo4, hrepo3, hrepo2]
          · rw [hrepo4, hrepo3, hrepo2]
          · rw [hrepo4, hrepo3, hrepo2]
          · rw [hrepo4, hrepo3, hrepo2]
          · rw [hev4, hev3, hev2]

theorem newSystemDesign_ok (env : Env) (st : StepState) (ctx : Json)
    (flds : SystemDesignFields) (st' : StepState)
    (h : newSystemDesign env st ctx = (.ok flds, st')) :
    ∃ raw, env.askV1 (.newDesign ctx env.promptFormat) = .ok raw ∧
      flds = normalizeFields raw ∧
      st'.repo = st.repo ∧
      st'.events = st.events ++ [.llmCall (.newDesign ctx env.promptFormat)]
        ++ (if env.workdirSet then [] else [.rootRenamed (normalizeFields raw).pythonPackageName]) := by
  unfold newSystemDesign at h
  simp only [] at h
  cases hask : env.askV1 (.newDesign ctx env.promptFormat) with
  | error e => rw [hask] at h; simp [Prod.ext_iff] at h
  | ok raw =>
      rw [hask] at h
      simp only [Prod.mk.injEq, Except.ok.injEq] at h
      obtain ⟨hf, hst⟩ := h
      refine ⟨raw, rfl, hf.symm, ?_, ?_⟩
      · rw [← hst]
        unfold renameWorkspace addEvent
        by_cases hw : env.workdirSet <;> simp [hw]
      · rw [← hst]
        unfold renameWorkspace addEvent normalizeFields
        by_cases hw : env.workdirSet <;> simp [hw]

theorem mergeDesign_ok (env : Env) (st : StepState) (prdDoc oldDoc : Document)
    (d : Document) (st' : StepState)
    (h : mergeDesign env st prdDoc oldDoc = (.ok d, st')) :
    ∃ raw, env.askV1 (.merge oldDoc.content prdDoc.content env.promptFormat) = .ok raw ∧
      d = { oldDoc with content := fieldsToJson (normalizeFields raw) } ∧
      st'.repo = st.repo ∧
      st'.events = st.events
        ++ [.llmCall (.merge oldDoc.content prdDoc.content env.promptFormat)] := by
  unfold mergeDesign at h
  simp only [] at h
  cases hask : env.askV1 (.merge oldDoc.content prdDoc.content env.promptFormat) with
  | error e => rw [hask] at h; simp [Prod.ext_iff] at h
  | ok raw =>
      rw [hask] at h
      simp only [Prod.mk.injEq, Except.ok.injEq] at h
      obtain ⟨hf, hst⟩ := h
      refine ⟨raw, rfl, ?_, ?_, ?_⟩
      · rw [← hf]
        rfl
      · rw [← hst]
        rfl
      · rw [← hst]
        rfl

theorem updateSystemDesign_ok (env : Env) (st : StepState) (f : String)
    (doc : Document) (st' : StepState)
    (h : updateSystemDesign env st f = (.ok doc, st')) :
    ∃ prdC raw pre,
      alookup st.repo.prdFiles f = some prdC ∧
      doc.root_path = SYSTEM_DESIGN_FILE_REPO ∧
      doc.filename = f ∧
      doc.content = fieldsToJson (normalizeFields raw) ∧
      ((alookup st.repo.designFiles f = none ∧
          env.askV1 (.newDesign prdC env.promptFormat) = .ok raw ∧
          pre = [.llmCall (.newDesign prdC env.promptFormat)]
            ++ (if env.workdirSet then []
                else [.rootRenamed (normalizeFields raw).pythonPackageName])) ∨
       (∃ oldC, alookup st.repo.designFiles f = some oldC ∧
          env.askV1 (.merge oldC prdC env.promptFormat) = .ok raw ∧
          pre = [.llmCall (.merge oldC prdC env.promptFormat)])) ∧
      st'.repo.designFiles = aset st.repo.designFiles f doc.content ∧
      st'.repo.prdFiles = st.repo.prdFiles ∧
      st'.repo.prdChanged = st.repo.prdChanged ∧
      st'.repo.designChanged = st.repo.designChanged ∧
      st'.events = st.events ++ pre
        ++ [.designSaved f doc.content [PRDS_FILE_REPO ++ "/" ++ f]]
        ++ (mermaidSpec doc "Data structures and interface definitions").map
            (fun p => Event.mermaidSaved DATA_API_DESIGN_FILE_REPO p.1 p.2)
        ++ (mermaidSpec doc "Program call flow").map
            (fun p => Event.mermaidSaved SEQ_FLOW_FILE_REPO p.1 p.2)
        ++ [.pdfSaved doc.filename doc.content] := by
  unfold updateSystemDesign at h
  cases hprd : alookup st.repo.prdFiles f with
  | none => rw [hprd] at h; simp [Prod.ext_iff] at h
  | some prdC =>
      rw [hprd] at h
      simp only [] at h
      cases hold : alookup st.repo.designFiles f with
      | none =>
          rw [hold] at h
          simp only [] at h
          split at h
          · simp [Prod.ext_iff] at h
          · rename_i flds stN heqN
            obtain ⟨raw, hask, hflds, hrepoN, hevN⟩ :=
              newSystemDesign_ok env st _ flds stN heqN
            obtain ⟨hd, hdf, hpf, hpc, hdc, hev⟩ :=
              saveAll_ok env stN f ⟨PRDS_FILE_REPO, f, prdC⟩
                ⟨SYSTEM_DESIGN_FILE_REPO, f, fieldsToJson flds⟩ doc st' h
            refine ⟨prdC, raw, _, rfl, ?_, ?_, ?_,
              Or.inl ⟨rfl, hask, rfl⟩, ?_, ?_, ?_, ?_, ?_⟩
            · rw [hd]
            · rw [hd]
            · rw [hd, hflds]
            · rw [hdf, hrepoN, hd, hflds]
            · rw [hpf, hrepoN]
            · rw [hpc, hrepoN]
            · rw [hdc, hrepoN]
            · rw [hev, hevN, hd, hflds]
              simp [Document.rootRelativePath, List.append_assoc]
      | some oldC =>
          rw [hold] at h
          simp only [] at h
          split at h
          · simp [Prod.ext_iff] at h
          · rename_i dM stM heqM
            obtain ⟨raw, hask, hdM, hrepoM, hevM⟩ :=
              mergeDesign_ok env st ⟨PRDS_FILE_REPO, f, prdC⟩
                ⟨SYSTEM_DESIGN_FILE_REPO, f, oldC⟩ dM stM heqM
            obtain ⟨hd, hdf, hpf, hpc, hdc, hev⟩ :=
              saveAll_ok env stM f ⟨PRDS_FILE_REPO, f, prdC⟩ dM doc st' h
            refine ⟨prdC, raw, _, rfl, ?_, ?_, ?_,
              Or.inr ⟨oldC, rfl, hask, rfl⟩, ?_, ?_, ?_, ?_, ?_⟩
            · rw [hd, hdM]
            · rw [hd, hdM]
            · rw [hd, hdM]
            · rw [hdf, hrepoM, hd, hdM]
            · rw [hpf, hrepoM]
            · rw [hpc, hrepoM]
            · rw [hdc, hrepoM]
            · rw [hev, hevM, hd, hdM]
              simp [Document.rootRelativePath, List.append_assoc]

theorem mermaidSpec_ds (r n : String) (flds : SystemDesignFields) :
    mermaidSpec ⟨r, n, fieldsToJson flds⟩ "Data structures and interface definitions" =
      if flds.dataStructures = "" then [] else [(n, Json.str flds.dataStructures)] := by
  by_cases hs : flds.dataStructures = "" <;>
    simp [mermaidSpec, get_fieldsToJson_ds, jsonTruthy, hs]

theorem mermaidSpec_flow (r n : String) (flds : SystemDesignFields) :
    mermaidSpec ⟨r, n, fieldsToJson flds⟩ "Program call flow" =
      if flds.programCallFlow = "" then [] else [(n, Json.str flds.programCallFlow)] := by
  by_cases hs : flds.programCallFlow = "" <;>
    simp [mermaidSpec, get_fieldsToJson_flow, jsonTruthy, hs]

theorem updateSystemDesign_ok_trace (env : Env) (st : StepState) (f : String)
    (doc : Document) (st' : StepState)
    (h : updateSystemDesign env st f = (.ok doc, st')) :
    ∃ flds new,
      doc = ⟨SYSTEM_DESIGN_FILE_REPO, f, fieldsToJson flds⟩ ∧
      st'.events = st.events ++ new ∧
      (llmCalls new).length = 1 ∧
      savedDesigns new = [(f, fieldsToJson flds)] ∧
      savedPdfs new = [(f, fieldsToJson flds)] ∧
      savedMermaids DATA_API_DESIGN_FILE_REPO new =
        (if flds.dataStructures = "" then [] else [(f, Json.str flds.dataStructures)]) ∧
      savedMermaids SEQ_FLOW_FILE_REPO new =
        (if flds.programCallFlow = "" then [] else [(f, Json.str flds.programCallFlow)]) ∧
      (∀ e ∈ new, ∀ g, eventTouches e = some g → g = f) := by
  obtain ⟨prdC, raw, pre, hprd, hroot, hfile, hcontent, hbranch, hdf, hpf, hpc, hdc, hev⟩ :=
    updateSystemDesign_ok env st f doc st' h
  have hdoc : doc = ⟨SYSTEM_DESIGN_FILE_REPO, f, fieldsToJson (normalizeFields raw)⟩ := by
    obtain ⟨dr, dn, dc⟩ := doc
    simp only [] at hroot hfile hcontent
    rw [hroot, hfile, hcontent]
  subst hdoc
  rw [mermaidSpec_ds, mermaidSpec_flow] at hev
  simp only [] at hev hdf
  have hpre : (llmCalls pre).length = 1 ∧
      savedDesigns pre = [] ∧ savedPdfs pre = [] ∧
      (∀ r, savedMermaids r pre = []) ∧
      (∀ e ∈ pre, eventTouches e = none) := by
    rcases hbranch with ⟨h1, h2, h3⟩ | ⟨oldC, h1, h2, h3⟩
    · subst h3
      by_cases hw : env.workdirSet <;>
        simp [hw, llmCalls, savedDesigns, savedPdfs, savedMermaids, eventTouches]
    · subst h3
      simp [llmCalls, savedDesigns, savedPdfs, savedMermaids, eventTouches]
  obtain ⟨hp1, hp2, hp3, hp4, hp5⟩ := hpre
  simp only [llmCalls] at hp1
  simp only [savedDesigns] at hp2
  simp only [savedPdfs] at hp3
  simp only [savedMermaids] at hp4
  refine ⟨normalizeFields raw,
    pre ++ [.designSaved f (fieldsToJson (normalizeFields raw)) [PRDS_FILE_REPO ++ "/" ++ f]]
      ++ (if (normalizeFields raw).dataStructures = "" then []
          else [(f, Json.str (normalizeFields raw).dataStructures)]).map
          (fun p => Event.mermaidSaved DATA_API_DESIGN_FILE_REPO p.1 p.2)
      ++ (if (normalizeFields raw).programCallFlow = "" then []
          else [(f, Json.str (normalizeFields raw).programCallFlow)]).map
          (fun p => Event.mermaidSaved SEQ_FLOW_FILE_REPO p.1 p.2)
      ++ [.pdfSaved f (fieldsToJson (normalizeFields raw))],
    rfl, ?_, ?_, ?_, ?_, ?_, ?_, ?_⟩
  · rw [hev]
    simp [List.append_assoc]
  · by_cases hds : (normalizeFields raw).dataStructures = "" <;>
      by_cases hfl : (normalizeFields raw).programCallFlow = "" <;>
      simp [llmCalls, List.filterMap_append, hds, hfl, hp1]
  · by_cases hds : (normalizeFields raw).dataStructures = "" <;>
      by_cases hfl : (normalizeFields raw).programCallFlow = "" <;>
      simp [savedDesigns, List.filterMap_append, hds, hfl, hp2]
  · by_cases hds : (normalizeFields raw).dataStructures = "" <;>
      by_cases hfl : (normalizeFields raw).programCallFlow = "" <;>
      simp [savedPdfs, List.filterMap_append, hds, hfl, hp3]
  · by_cases hds : (normalizeFields raw).dataStructures = "" <;>
      by_cases hfl : (normalizeFields raw).programCallFlow = "" <;>
      simp [savedMermaids, List.filterMap_append, hds, hfl, hp4,
        DATA_API_DESIGN_FILE_REPO, PRDS_FILE_REPO, SEQ_FLOW_FILE_REPO]
  · by_cases hds : (normalizeFields raw).dataStructures = "" <;>
      by_cases hfl : (normalizeFields raw).programCallFlow = "" <;>
      simp [savedMermaids, List.filterMap_append, hds, hfl, hp4,
        DATA_API_DESIGN_FILE_REPO, PRDS_FILE_REPO, SEQ_FLOW_FILE_REPO]
  · intro e he g hg
    simp only [List.mem_append] at he
    rcases he with ((((hepre | he1) | he2) | he3) | he4)
    · have := hp5 e hepre
      rw [this] at hg
      cases hg
    · rw [List.mem_singleton] at he1
      subst he1
      simp [eventTouches] at hg
      exact hg.symm
    · by_cases hds : (normalizeFields raw).dataStructures = "" <;>
        simp [hds] at he2
      subst he2
      simp [eventTouches] at hg
      exact hg.symm
    · by_cases hfl : (normalizeFields raw).programCallFlow = "" <;>
        simp [hfl] at he3
      subst he3
      simp [eventTouches] at hg
      exact hg.symm
    · rw [List.mem_singleton] at he4
      subst he4
      simp [eventTouches] at hg
      exact hg.symm

theorem runPrdPass_error (env : Env) (l : List String) (acc : Documents) (st : StepState)
    (e : PyError) (st' : StepState) (h : runPrdPass env l acc st = (.error e, st')) :
    ∃ stM g, updateSystemDesign env stM g = (.error e, st') := by
  induction l generalizing acc st with
  | nil => simp [runPrdPass, Prod.ext_iff] at h
  | cons f rest ih =>
      unfold runPrdPass at h
      cases hu : updateSystemDesign env st f with
      | mk r stn =>
          rw [hu] at h
          cases r with
          | error e2 =>
              simp only [Prod.mk.injEq, Except.error.injEq] at h
              obtain ⟨he, hst⟩ := h
              exact ⟨st, f, by rw [hu, he, hst]⟩
          | ok d =>
              simp only [] at h
              exact ih _ _ h

theorem runDesignPass_error (env : Env) (l : List String) (acc : Documents) (st : StepState)
    (e : PyError) (st' : StepState) (h : runDesignPass env l acc st = (.error e, st')) :
    ∃ stM g, updateSystemDesign env stM g = (.error e, st') := by
  induction l generalizing acc st with
  | nil => simp [runDesignPass, Prod.ext_iff] at h
  | cons f rest ih =>
      unfold runDesignPass at h
      by_cases hmem : (alookup acc.docs f).isSome
      · rw [if_pos hmem] at h
        exact ih _ _ h
      · rw [if_neg hmem] at h
        cases hu : updateSystemDesign env st f with
        | mk r stn =>
            rw [hu] at h
            cases r with
            | error e2 =>
                simp only [Prod.mk.injEq, Except.error.injEq] at h
                obtain ⟨he, hst⟩ := h
                exact ⟨st, f, by rw [hu, he, hst]⟩
            | ok d =>
                simp only [] at h
                exact ih _ _ h

theorem run_error (env : Env) (st : StepState) (e : PyError) (st' : StepState)
    (h : run env st = (.error e, st')) :
    ∃ stM g, updateSystemDesign env stM g = (.error e, st') := by
  unfold run at h
  cases hp : runPrdPass env st.repo.prdChanged ⟨[]⟩ st with
  | mk r st2 =>
      rw [hp] at h
      cases r with
      | error e2 =>
          simp only [Prod.mk.injEq, Except.error.injEq] at h
          obtain ⟨he, hst⟩ := h
          exact runPrdPass_error env _ _ _ e st' (by rw [hp, he, hst])
      | ok acc =>
          simp only [] at h
          exact runDesignPass_error env _ _ _ e st' h

theorem runPrdPass_nil (env : Env) (acc : Documents) (st : StepState) :
    runPrdPass env [] acc st = (.ok acc, st) := rfl

theorem runPrdPass_cons (env : Env) (f : String) (rest : List String)
    (acc : Documents) (st : StepState) :
    runPrdPass env (f :: rest) acc st =
      match updateSystemDesign env st f with
      | (.error e, st') => (.error e, st')
      | (.ok doc, st') => runPrdPass env rest ⟨aset acc.docs f doc⟩ st' := rfl

theorem runPrdPass_append (env : Env) (l₁ l₂ : List String) (acc : Documents)
    (st : StepState) :
    runPrdPass env (l₁ ++ l₂) acc st =
      match runPrdPass env l₁ acc st with
      | (.error e, st') => (.error e, st')
      | (.ok acc', st') => runPrdPass env l₂ acc' st' := by
  induction l₁ generalizing acc st with
  | nil => rfl
  | cons f rest ih =>
      rw [List.cons_append, runPrdPass_cons, runPrdPass_cons]
      cases hu : updateSystemDesign env st f with
      | mk r stn =>
          cases r with
          | error e2 => rfl
          | ok d => exact ih _ _

theorem runPrdPass_ok_keys (env : Env) (l : List String) (acc : Documents) (st : StepState)
    (acc' : Documents) (st' : StepState) (h : runPrdPass env l acc st = (.ok acc', st')) :
    ∀ g, (alookup acc'.docs g).isSome ↔ ((alookup acc.docs g).isSome ∨ g ∈ l) := by
  induction l generalizing acc st with
  | nil =>
      simp only [runPrdPass, Prod.mk.injEq, Except.ok.injEq] at h
      obtain ⟨ha, hst⟩ := h
      subst ha
      simp
  | cons f rest ih =>
      unfold runPrdPass at h
      cases hu : updateSystemDesign env st f with
      | mk r stn =>
          rw [hu] at h
          cases r with
          | error e2 => simp [Prod.ext_iff] at h
          | ok d =>
              simp only [] at h
              intro g
              rw [ih _ _ h g]
              simp only [List.mem_cons]
              rw [alookup_aset]
              by_cases hg : f = g
              · subst hg
                simp
              · have : ¬g = f := fun hh => hg hh.symm
                simp [hg, this]

theorem runDesignPass_eq_filter (env : Env) (l : List String) (acc : Documents)
    (st : StepState) (hnd : l.Nodup) :
    runDesignPass env l acc st =
      runPrdPass env (l.filter (fun g => (alookup acc.docs g).isNone)) acc st := by
  induction l generalizing acc st with
  | nil => simp [runDesignPass, runPrdPass]
  | cons f rest ih =>
      have hndr : rest.Nodup := hnd.of_cons
      have hfm : f ∉ rest := (List.nodup_cons.mp hnd).1
      unfold runDesignPass
      by_cases hmem : (alookup acc.docs f).isSome
      · rw [if_pos hmem]
        have hdrop : (f :: rest).filter (fun g => (alookup acc.docs g).isNone) =
            rest.filter (fun g => (alookup acc.docs g).isNone) := by
          rw [List.filter_cons]
          cases hv : alookup acc.docs f with
          | none => rw [hv] at hmem; simp at hmem
          | some v => simp [hv]
        rw [hdrop]
        exact ih acc st hndr
      · rw [if_neg hmem]
        have hkeep : (f :: rest).filter (fun g => (alookup acc.docs g).isNone) =
            f :: rest.filter (fun g => (alookup acc.docs g).isNone) := by
          rw [List.filter_cons]
          cases hv : alookup acc.docs f with
          | none => simp [hv]
          | some v => rw [hv] at hmem; simp at hmem
        rw [hkeep]
        unfold runPrdPass
        cases hu : updateSystemDesign env st f with
        | mk r stn =>
            cases r with
            | error e2 => simp only []
            | ok d =>
                simp only []
                rw [ih ⟨aset acc.docs f d⟩ stn hndr]
                have hfc : rest.filter (fun g => (alookup (aset acc.docs f d) g).isNone) =
                    rest.filter (fun g => (alookup acc.docs g).isNone) := by
                  apply List.filter_congr
                  intro g hgmem
                  have hgf : ¬f = g := fun hh => hfm (hh ▸ hgmem)
                  rw [alookup_aset, if_neg hgf]
                rw [hfc]

theorem run_eq_seq (env : Env) (st : StepState)
    (h2 : st.repo.designChanged.Nodup) :
    run env st =
      runPrdPass env (processOrder st.repo.prdChanged st.repo.designChanged) ⟨[]⟩ st := by
  unfold run processOrder
  rw [runPrdPass_append]
  cases hp : runPrdPass env st.repo.prdChanged ⟨[]⟩ st with
  | mk r st2 =>
      cases r with
      | error e => simp only []
      | ok acc =>
          simp only []
          rw [runDesignPass_eq_filter env _ acc st2 h2]
          have hfc : st.repo.designChanged.filter
              (fun g => (alookup acc.docs g).isNone) =
              st.repo.designChanged.filter (fun g => decide (g ∉ st.repo.prdChanged)) := by
            apply List.filter_congr
            intro g hgmem
            have hkey := runPrdPass_ok_keys env _ _ _ acc st2 hp g
            simp only [alookup, Option.isSome_none, false_or] at hkey
            cases hv : alookup acc.docs g with
            | none =>
                rw [hv] at hkey
                simp at hkey
                simp [hkey]
            | some v =>
                rw [hv] at hkey
                simp at hkey
                simp [hkey]
          rw [hfc]

theorem runDesignPass_nil (env : Env) (acc : Documents) (st : StepState) :
    runDesignPass env [] acc st = (.ok acc, st) := rfl

theorem savedDesigns_append (a b : List Event) :
    savedDesigns (a ++ b) = savedDesigns a ++ savedDesigns b := by
  simp [savedDesigns, List.filterMap_append]

theorem processOrder_nodup (prds designs : List String)
    (h1 : prds.Nodup) (h2 : designs.Nodup) : (processOrder prds designs).Nodup := by
  unfold processOrder
  rw [List.nodup_append]
  refine ⟨h1, h2.filter _, ?_⟩
  intro a ha hb
  have := List.of_mem_filter hb
  simp at this
  exact this ha

theorem runPrdPass_ok_docs (env : Env) (l : List String) (acc : Documents)
    (st : StepState) (acc' : Documents) (st' : StepState)
    (h : runPrdPass env l acc st = (.ok acc', st'))
    (hfresh : ∀ g ∈ l, alookup acc.docs g = none) (hnd : l.Nodup) :
    acc'.docs.map Prod.fst = acc.docs.map Prod.fst ++ l ∧
    (savedDesigns st'.events).map Prod.fst =
      (savedDesigns st.events).map Prod.fst ++ l := by
  induction l generalizing acc st with
  | nil =>
      rw [runPrdPass_nil] at h
      simp only [Prod.mk.injEq, Except.ok.injEq] at h
      obtain ⟨ha, hst⟩ := h
      subst ha
      subst hst
      simp
  | cons f rest ih =>
      rw [runPrdPass_cons] at h
      cases hu : updateSystemDesign env st f with
      | mk r stn =>
          rw [hu] at h
          cases r with
          | error e2 => simp [Prod.ext_iff] at h
          | ok d =>
              simp only [] at h
              have hfreshf : alookup acc.docs f = none := hfresh f (List.mem_cons_self f rest)
              obtain ⟨flds, new, hdoc, hev, hllm, hsd, hpdf, hmd, hms, htch⟩ :=
                updateSystemDesign_ok_trace env st f d stn hu
              have hfresh2 : ∀ g ∈ rest,
                  alookup (Documents.mk (aset acc.docs f d)).docs g = none := by
                intro g hg
                have hgf : ¬f = g := by
                  intro hh
                  exact (List.nodup_cons.mp hnd).1 (hh ▸ hg)
                simp only []
                rw [alookup_aset, if_neg hgf]
                exact hfresh g (List.mem_cons_of_mem f hg)
              obtain ⟨ih1, ih2⟩ := ih ⟨aset acc.docs f d⟩ stn h hfresh2 hnd.of_cons
              constructor
              · rw [ih1]
                simp only []
                rw [aset_of_lookup_none _ _ _ hfreshf]
                simp
              · rw [ih2, hev, savedDesigns_append, hsd]
                simp

/-- C1: for every changed filename whose PRD is present, `_update_system_design`
decides by exactly one two-branch conditional on the presence of a prior design
document: with no prior design the produced document is brand-new, generated
from the PRD content through the new-design prompt; with a prior design the
produced document is the prior document with its content replaced by the answer
to the merge prompt built from the prior design and the changed PRD. -/
theorem c1_two_branch_decision (env : Env) (st : StepState) (f : String) (prdC : Json)
    (doc : Document) (st' : StepState)
    (hprd : alookup st.repo.prdFiles f = some prdC)
    (hrun : updateSystemDesign env st f = (.ok doc, st')) :
    (alookup st.repo.designFiles f = none →
      ∃ raw, env.askV1 (.newDesign prdC env.promptFormat) = .ok raw ∧
        doc = ⟨SYSTEM_DESIGN_FILE_REPO, f, fieldsToJson (normalizeFields raw)⟩) ∧
    (∀ oldC, alookup st.repo.designFiles f = some oldC →
      ∃ raw, env.askV1 (.merge oldC prdC env.promptFormat) = .ok raw ∧
        doc = { Document.mk SYSTEM_DESIGN_FILE_REPO f oldC with
                  content := fieldsToJson (normalizeFields raw) }) := by
  obtain ⟨prdC', raw, pre, hprd', hroot, hfile, hcontent, hbranch, hrest⟩ :=
    updateSystemDesign_ok env st f doc st' hrun
  rw [hprd] at hprd'
  have hpc := Option.some.inj hprd'
  subst hpc
  have hdoc : doc = ⟨SYSTEM_DESIGN_FILE_REPO, f, fieldsToJson (normalizeFields raw)⟩ := by
    obtain ⟨dr, dn, dc⟩ := doc
    simp only [] at hroot hfile hcontent
    rw [hroot, hfile, hcontent]
  constructor
  · intro hnone
    rcases hbranch with ⟨hn, hask, hpre⟩ | ⟨oldC, hsome, hask, hpre⟩
    · exact ⟨raw, hask, hdoc⟩
    · rw [hnone] at hsome
      cases hsome
  · intro oldC hsome
    rcases hbranch with ⟨hn, hask, hpre⟩ | ⟨oldC', hsome', hask, hpre⟩
    · rw [hn] at hsome
      cases hsome
    · rw [hsome] at hsome'
      have hoc := Option.some.inj hsome'
      subst hoc
      exact ⟨raw, hask, hdoc⟩

/-- C1 witness: at a concrete environment and state with one changed PRD and no
prior design, the new-design branch fires with the oracle's answer. -/
theorem c1_witness :
    ∃ raw, wEnv.askV1 (.newDesign (.str "prd a") wEnv.promptFormat) = .ok raw ∧
      (⟨SYSTEM_DESIGN_FILE_REPO, "a.txt",
          fieldsToJson (normalizeFields sampleFields)⟩ : Document) =
        ⟨SYSTEM_DESIGN_FILE_REPO, "a.txt", fieldsToJson (normalizeFields raw)⟩ :=
  (c1_two_branch_decision wEnv wSt "a.txt" (.str "prd a")
      ⟨SYSTEM_DESIGN_FILE_REPO, "a.txt", fieldsToJson (normalizeFields sampleFields)⟩
      ((updateSystemDesign wEnv wSt "a.txt").2) rfl rfl).1 rfl

/-- C2: every design document produced (and persisted under its filename) by
`_update_system_design`, in either branch, has content that deserializes to
exactly the six `OUTPUT_MAPPING` fields and re-serializes to the same content. -/
theorem c2_six_field_roundtrip (env : Env) (st : StepState) (f : String)
    (doc : Document) (st' : StepState)
    (hrun : updateSystemDesign env st f = (.ok doc, st')) :
    alookup st'.repo.designFiles f = some doc.content ∧
    ∃ flds, jsonToFields doc.content = some flds ∧
      fieldsToJson flds = doc.content ∧
      doc.content.keys = outputMappingKeys := by
  obtain ⟨prdC, raw, pre, hprd, hroot, hfile, hcontent, hbranch, hdf, hrest⟩ :=
    updateSystemDesign_ok env st f doc st' hrun
  constructor
  · rw [hdf, alookup_aset, if_pos rfl]
  · refine ⟨normalizeFields raw, ?_, ?_, ?_⟩
    · rw [hcontent, jsonToFields_fieldsToJson]
    · rw [hcontent]
    · rw [hcontent, fieldsToJson_keys]

/-- C2 witness: the concrete processed document round-trips. -/
theorem c2_witness :
    alookup (updateSystemDesign wEnv wSt "a.txt").2.repo.designFiles "a.txt" =
      some (fieldsToJson (normalizeFields sampleFields)) ∧
    ∃ flds, jsonToFields (fieldsToJson (normalizeFields sampleFields)) = some flds ∧
      fieldsToJson flds = fieldsToJson (normalizeFields sampleFields) ∧
      (fieldsToJson (normalizeFields sampleFields)).keys = outputMappingKeys :=
  c2_six_field_roundtrip wEnv wSt "a.txt"
    ⟨SYSTEM_DESIGN_FILE_REPO, "a.txt", fieldsToJson (normalizeFields sampleFields)⟩
    ((updateSystemDesign wEnv wSt "a.txt").2) rfl

/-- C4: `run` contains no exception handling: whenever execution reaches a
changed filename — every earlier filename in the processing order succeeded —
and the unit of work for that filename raises (a failure of model invocation,
response parsing, or file I/O, all of which surface as an error of
`_update_system_design`), then `run` returns exactly that exception and exactly
the failure state.  The error propagates out uncaught and unchanged, no later
filename is processed, and no catch-and-continue or retry occurs within this
step. -/
theorem c4_uncaught_propagation (env : Env) (st : StepState)
    (l₁ : List String) (f : String) (l₂ : List String) (acc₁ : Documents)
    (st₁ : StepState) (e : PyError) (st₂ : StepState)
    (h2 : st.repo.designChanged.Nodup)
    (hsplit : processOrder st.repo.prdChanged st.repo.designChanged = l₁ ++ f :: l₂)
    (hpre : runPrdPass env l₁ ⟨[]⟩ st = (.ok acc₁, st₁))
    (hfail : updateSystemDesign env st₁ f = (.error e, st₂)) :
    run env st = (.error e, st₂) := by
  rw [run_eq_seq env st h2, hsplit, runPrdPass_append, hpre]
  simp only []
  rw [runPrdPass_cons, hfail]

/-- C4 witness: with a raising LLM oracle, the first changed filename's failure
is returned by `run` verbatim, together with the failure state. -/
theorem c4_witness :
    run failEnv wSt =
      (.error (.external "llm raised"), (updateSystemDesign failEnv wSt "a.txt").2) :=
  c4_uncaught_propagation failEnv wSt [] "a.txt" [] ⟨[]⟩ wSt
    (.external "llm raised") ((updateSystemDesign failEnv wSt "a.txt").2)
    (by simp [wSt]) rfl rfl rfl

/-- C6: `run` is strictly sequential: it is equal to the one-at-a-time fold of
the single-file unit of work over the processing order — every changed-PRD
filename first, each processed to completion before the next, and only then the
changed-system-design filenames not already processed, again one at a time. -/
theorem c6_sequential (env : Env) (st : StepState)
    (h2 : st.repo.designChanged.Nodup) :
    run env st =
      runPrdPass env (processOrder st.repo.prdChanged st.repo.designChanged) ⟨[]⟩ st :=
  run_eq_seq env st h2

/-- C6 witness: the decomposition at a concrete state. -/
theorem c6_witness :
    run wEnv wSt =
      runPrdPass wEnv (processOrder wSt.repo.prdChanged wSt.repo.designChanged) ⟨[]⟩ wSt :=
  c6_sequential wEnv wSt (by simp [wSt])

/-- C7: when change detection reports no changed PRDs and no changed system
designs, `run` does nothing: the state is unchanged (zero LLM calls, zero saved
documents or files) and the returned document collection is empty. -/
theorem c7_no_changes_no_work (env : Env) (st : StepState)
    (hp : st.repo.prdChanged = []) (hd : st.repo.designChanged = []) :
    run env st = (.ok ⟨[]⟩, st) := by
  unfold run
  rw [hp, hd, runPrdPass_nil]
  rfl

/-- C7 witness: a concrete state with empty change sets is returned untouched. -/
theorem c7_witness : run wEnv quietSt = (.ok ⟨[]⟩, quietSt) :=
  c7_no_changes_no_work wEnv quietSt rfl rfl

/-- C3 counterexample: a changed PRD whose model answer carries an empty
"Program call flow" field is processed to completion (design saved, class
diagram saved, PDF saved, result returned) yet no sequence-diagram file is
produced, so the claim that both diagram files are produced for each changed
input is false. -/
theorem c3_counterexample :
    Except.map (fun out => out.docs.map Prod.fst) (run cEnvFlow wSt).1 =
      .ok ["a.txt"] ∧
    (savedDesigns (run cEnvFlow wSt).2.events).map Prod.fst = ["a.txt"] ∧
    (savedPdfs (run cEnvFlow wSt).2.events).map Prod.fst = ["a.txt"] ∧
    savedMermaids DATA_API_DESIGN_FILE_REPO (run cEnvFlow wSt).2.events =
      [("a.txt", .str "classDiagram")] ∧
    savedMermaids SEQ_FLOW_FILE_REPO (run cEnvFlow wSt).2.events = [] :=
  ⟨rfl, rfl, rfl, rfl, rfl⟩

/-- C3 as amended: for each changed filename processed to completion, the step
performs exactly one model call, saves the design document once and the PDF
once, and derives the class-diagram file exactly when the parsed
"Data structures and interface definitions" field is non-empty and the
sequence-diagram file exactly when the parsed "Program call flow" field is
non-empty. -/
theorem c3_amended_unit_of_work (env : Env) (st : StepState) (f : String)
    (doc : Document) (st' : StepState)
    (hrun : updateSystemDesign env st f = (.ok doc, st')) :
    ∃ flds new,
      doc.content = fieldsToJson flds ∧
      st'.events = st.events ++ new ∧
      (llmCalls new).length = 1 ∧
      savedDesigns new = [(f, doc.content)] ∧
      savedPdfs new = [(f, doc.content)] ∧
      savedMermaids DATA_API_DESIGN_FILE_REPO new =
        (if flds.dataStructures = "" then [] else [(f, Json.str flds.dataStructures)]) ∧
      savedMermaids SEQ_FLOW_FILE_REPO new =
        (if flds.programCallFlow = "" then [] else [(f, Json.str flds.programCallFlow)]) := by
  obtain ⟨flds, new, hdoc, hev, h1, h2, h3, h4, h5, htch⟩ :=
    updateSystemDesign_ok_trace env st f doc st' hrun
  subst hdoc
  exact ⟨flds, new, rfl, hev, h1, h2, h3, h4, h5⟩

/-- C3 witness: the amended unit of work at a concrete successful run. -/
theorem c3_witness :
    ∃ flds new,
      fieldsToJson (normalizeFields sampleFields) = fieldsToJson flds ∧
      (updateSystemDesign wEnv wSt "a.txt").2.events = wSt.events ++ new ∧
      (llmCalls new).length = 1 ∧
      savedDesigns new = [("a.txt", fieldsToJson (normalizeFields sampleFields))] ∧
      savedPdfs new = [("a.txt", fieldsToJson (normalizeFields sampleFields))] ∧
      savedMermaids DATA_API_DESIGN_FILE_REPO new =
        (if flds.dataStructures = "" then []
         else [("a.txt", Json.str flds.dataStructures)]) ∧
      savedMermaids SEQ_FLOW_FILE_REPO new =
        (if flds.programCallFlow = "" then []
         else [("a.txt", Json.str flds.programCallFlow)]) :=
  c3_amended_unit_of_work wEnv wSt "a.txt"
    ⟨SYSTEM_DESIGN_FILE_REPO, "a.txt", fieldsToJson (normalizeFields sampleFields)⟩
    ((updateSystemDesign wEnv wSt "a.txt").2) rfl

/-- C5: with distinct changed filenames (git change sets are dictionary keys)
and a successful run starting from an empty trace, each filename is processed at
most once: the returned collection maps exactly the processing order — changed
PRDs first, then changed designs not among them — each to one document, that
order has no duplicates, and exactly one design save per processed filename is
performed, in that order. -/
theorem c5_each_filename_once (env : Env) (st : StepState) (out : Documents)
    (st' : StepState)
    (h1 : st.repo.prdChanged.Nodup) (h2 : st.repo.designChanged.Nodup)
    (hev : st.events = []) (hrun : run env st = (.ok out, st')) :
    out.docs.map Prod.fst = processOrder st.repo.prdChanged st.repo.designChanged ∧
    (savedDesigns st'.events).map Prod.fst =
      processOrder st.repo.prdChanged st.repo.designChanged ∧
    (processOrder st.repo.prdChanged st.repo.designChanged).Nodup := by
  rw [run_eq_seq env st h2] at hrun
  have hfresh : ∀ g ∈ processOrder st.repo.prdChanged st.repo.designChanged,
      alookup (Documents.mk []).docs g = none := fun g _ => rfl
  have hnd := processOrder_nodup _ _ h1 h2
  obtain ⟨ha, hb⟩ := runPrdPass_ok_docs env _ ⟨[]⟩ st out st' hrun hfresh hnd
  refine ⟨?_, ?_, hnd⟩
  · simpa using ha
  · rw [hb, hev]
    simp [savedDesigns]

/-- C5 witness: the uniqueness facts at a concrete run with one changed PRD. -/
theorem c5_witness :
    (Documents.mk [("a.txt",
        ⟨SYSTEM_DESIGN_FILE_REPO, "a.txt",
          fieldsToJson (normalizeFields sampleFields)⟩)]).docs.map Prod.fst =
      processOrder wSt.repo.prdChanged wSt.repo.designChanged ∧
    (savedDesigns (run wEnv wSt).2.events).map Prod.fst =
      processOrder wSt.repo.prdChanged wSt.repo.designChanged ∧
    (processOrder wSt.repo.prdChanged wSt.repo.designChanged).Nodup :=
  c5_each_filename_once wEnv wSt
    ⟨[("a.txt", ⟨SYSTEM_DESIGN_FILE_REPO, "a.txt",
        fieldsToJson (normalizeFields sampleFields)⟩)]⟩
    ((run wEnv wSt).2) (by simp [wSt]) (by simp [wSt]) rfl rfl

/-- C8: processing one changed filename rewrites the design stored under that
filename wholesale with the newly produced content, leaves every other design
document and the whole PRD store unchanged, and every file-writing effect it
performs (design save, diagram renders, PDF export) touches only that
filename. -/
theorem c8_wholesale_frame (env : Env) (st : StepState) (f : String)
    (doc : Document) (st' : StepState)
    (hrun : updateSystemDesign env st f = (.ok doc, st')) :
    alookup st'.repo.designFiles f = some doc.content ∧
    (∀ g, g ≠ f → alookup st'.repo.designFiles g = alookup st.repo.designFiles g) ∧
    st'.repo.prdFiles = st.repo.prdFiles ∧
    ∃ new, st'.events = st.events ++ new ∧
      ∀ e ∈ new, ∀ g, eventTouches e = some g → g = f := by
  obtain ⟨prdC, raw, pre, hprd, hroot, hfile, hcontent, hbranch, hdf, hpf, hpc, hdc, hevq⟩ :=
    updateSystemDesign_ok env st f doc st' hrun
  refine ⟨?_, ?_, hpf, ?_⟩
  · rw [hdf, alookup_aset, if_pos rfl]
  · intro g hg
    rw [hdf, alookup_aset, if_neg (fun hh => hg hh.symm)]
  · obtain ⟨flds, new, hdoc, hev2, h1, h2, h3, h4, h5, htch⟩ :=
      updateSystemDesign_ok_trace env st f doc st' hrun
    exact ⟨new, hev2, htch⟩

/-- C8 witness: wholesale replacement and PRD-store framing at a concrete run. -/
theorem c8_witness :
    alookup (updateSystemDesign wEnv wSt "a.txt").2.repo.designFiles "a.txt" =
      some (fieldsToJson (normalizeFields sampleFields)) ∧
    (updateSystemDesign wEnv wSt "a.txt").2.repo.prdFiles = wSt.repo.prdFiles :=
  ⟨(c8_wholesale_frame wEnv wSt "a.txt"
      ⟨SYSTEM_DESIGN_FILE_REPO, "a.txt", fieldsToJson (normalizeFields sampleFields)⟩
      ((updateSystemDesign wEnv wSt "a.txt").2) rfl).1,
   (c8_wholesale_frame wEnv wSt "a.txt"
      ⟨SYSTEM_DESIGN_FILE_REPO, "a.txt", fieldsToJson (normalizeFields sampleFields)⟩
      ((updateSystemDesign wEnv wSt "a.txt").2) rfl).2.2.1⟩

/-- C9 counterexample: when the model answers with the package name
`"'snake'"` — a single-quoted name wrapped in double quotes — the persisted
"Python package name" value is `'snake'`, which both begins and ends with a
single-quote character, so the claim that the persisted value never begins or
ends with whitespace or a quote character is false. -/
theorem c9_counterexample :
    Except.map (fun d => d.content.get "Python package name")
        (updateSystemDesign cEnvQuoted wSt "a.txt").1 =
      .ok (some (.str "'snake'")) ∧
    "'snake'".data.head? = some '\'' ∧
    "'snake'".data.getLast? = some '\'' :=
  ⟨rfl, rfl, rfl⟩

/-- C9 as amended: in both branches the persisted "Python package name" value
is the raw parsed value normalized by stripping leading and trailing
whitespace, then single quotes, then double quotes, in that order
(`stripPackageName`); consequently the persisted value never begins or ends
with a double-quote character, though whitespace or single quotes exposed by an
outer quote layer may remain. -/
theorem c9_amended_normalization (env : Env) (st : StepState) (f : String)
    (doc : Document) (st' : StepState)
    (hrun : updateSystemDesign env st f = (.ok doc, st')) :
    ∃ raw, doc.content.get "Python package name" =
        some (.str (stripPackageName raw)) ∧
      alookup st'.repo.designFiles f = some doc.content ∧
      (∀ c, (stripPackageName raw).data.head? = some c → c ≠ '"') ∧
      (∀ c, (stripPackageName raw).data.getLast? = some c → c ≠ '"') := by
  obtain ⟨prdC, raw, pre, hprd, hroot, hfile, hcontent, hbranch, hdf, hpf, hpc, hdc, hevq⟩ :=
    updateSystemDesign_ok env st f doc st' hrun
  refine ⟨raw.pythonPackageName, ?_, ?_, ?_, ?_⟩
  · rw [hcontent, get_fieldsToJson_pkg]
    rfl
  · rw [hdf, alookup_aset, if_pos rfl]
  · intro c hc
    exact (stripPackageName_no_dquote_ends raw.pythonPackageName c).1 hc
  · intro c hc
    exact (stripPackageName_no_dquote_ends raw.pythonPackageName c).2 hc

/-- C9 witness: the amended normalization at the concrete quoted answer. -/
theorem c9_witness :
    ∃ raw, (fieldsToJson (normalizeFields quotedFields)).get "Python package name" =
        some (.str (stripPackageName raw)) ∧
      alookup (updateSystemDesign cEnvQuoted wSt "a.txt").2.repo.designFiles "a.txt" =
        some (fieldsToJson (normalizeFields quotedFields)) ∧
      (∀ c, (stripPackageName raw).data.head? = some c → c ≠ '"') ∧
      (∀ c, (stripPackageName raw).data.getLast? = some c → c ≠ '"') :=
  c9_amended_normalization cEnvQuoted wSt "a.txt"
    ⟨SYSTEM_DESIGN_FILE_REPO, "a.txt", fieldsToJson (normalizeFields quotedFields)⟩
    ((updateSystemDesign cEnvQuoted wSt "a.txt").2) rfl

/-- C10: `_merge` changes only the content field — the returned document keeps
the prior design's filename and root path and performs no repository write
itself — and in the merge path of `_update_system_design` the merged result is
saved back under the same filename, with the system-design root path. -/
theorem c10_merge_only_content (env : Env) :
    (∀ st prdDoc oldDoc d st',
        mergeDesign env st prdDoc oldDoc = (.ok d, st') →
        d.filename = oldDoc.filename ∧ d.root_path = oldDoc.root_path ∧
        st'.repo = st.repo ∧ ∃ flds, d.content = fieldsToJson flds) ∧
    (∀ st f oldC doc st',
        alookup st.repo.designFiles f = some oldC →
        updateSystemDesign env st f = (.ok doc, st') →
        doc.filename = f ∧ doc.root_path = SYSTEM_DESIGN_FILE_REPO ∧
        alookup st'.repo.designFiles f = some doc.content) := by
  constructor
  · intro st prdDoc oldDoc d st' h
    obtain ⟨raw, hask, hd, hrepo, hevm⟩ := mergeDesign_ok env st prdDoc oldDoc d st' h
    subst hd
    exact ⟨rfl, rfl, hrepo, normalizeFields raw, rfl⟩
  · intro st f oldC doc st' hold hrun
    obtain ⟨prdC, raw, pre, hprd, hroot, hfile, hcontent, hbranch, hdf, hrest⟩ :=
      updateSystemDesign_ok env st f doc st' hrun
    exact ⟨hfile, hroot, by rw [hdf, alookup_aset, if_pos rfl]⟩

/-- C10 witness: a concrete merge keeps the filename and the root path. -/
theorem c10_witness :
    (⟨SYSTEM_DESIGN_FILE_REPO, "a.txt",
        fieldsToJson (normalizeFields sampleFields)⟩ : Document).filename =
      (⟨SYSTEM_DESIGN_FILE_REPO, "a.txt", Json.str "old design"⟩ : Document).filename ∧
    (⟨SYSTEM_DESIGN_FILE_REPO, "a.txt",
        fieldsToJson (normalizeFields sampleFields)⟩ : Document).root_path =
      (⟨SYSTEM_DESIGN_FILE_REPO, "a.txt", Json.str "old design"⟩ : Document).root_path :=
  ⟨((c10_merge_only_content wEnv).1 wStMerge
      ⟨PRDS_FILE_REPO, "a.txt", .str "prd a"⟩
      ⟨SYSTEM_DESIGN_FILE_REPO, "a.txt", .str "old design"⟩
      ⟨SYSTEM_DESIGN_FILE_REPO, "a.txt", fieldsToJson (normalizeFields sampleFields)⟩
      ((mergeDesign wEnv wStMerge ⟨PRDS_FILE_REPO, "a.txt", .str "prd a"⟩
          ⟨SYSTEM_DESIGN_FILE_REPO, "a.txt", .str "old design"⟩).2) rfl).1,
   ((c10_merge_only_content wEnv).1 wStMerge
      ⟨PRDS_FILE_REPO, "a.txt", .str "prd a"⟩
      ⟨SYSTEM_DESIGN_FILE_REPO, "a.txt", .str "old design"⟩
      ⟨SYSTEM_DESIGN_FILE_REPO, "a.txt", fieldsToJson (normalizeFields sampleFields)⟩
      ((mergeDesign wEnv wStMerge ⟨PRDS_FILE_REPO, "a.txt", .str "prd a"⟩
          ⟨SYSTEM_DESIGN_FILE_REPO, "a.txt", .str "old design"⟩).2) rfl).2.1⟩

end DesignApi
